import Mathlib

/-!
Verification development for the pino-connector-core repository.

The definitions below are shallow embeddings of the TypeScript sources:
  * `src/core/transport-registry/index.ts` (severity ranking, fan-out, register/remove),
  * `src/plugins/hooks/index.ts` (execution plan, before/after hook runners),
  * `src/plugins/serializers/index.ts` (path-addressed redaction pipeline),
  * `src/core/connector.ts` (state guard, dispatch, shutdown),
  * `src/core/context/async-storage.ts` (async context manager).

JavaScript objects/arrays are modelled by the tree type `JVal`; `Option` models
the `undefined`-ability of property access; callbacks (hooks, serializer rules,
transport lifecycles) are modelled by the effects they perform, and thrown
exceptions by explicit `Option`/`Except` error values.  JavaScript in-place
mutation of a tree value is modelled functionally.
-/

namespace PinoConnector

/-- Log level names, from `src/core/types.ts` (`LogLevelName`). -/
inductive LogLevelName where
  | trace | debug | info | warn | error | fatal | silent
  deriving DecidableEq, Repr

/-- The numeric severity ranking `LEVEL_RANK` from
`src/core/transport-registry/index.ts`. -/
def LEVEL_RANK : LogLevelName → Nat
  | .trace => 10
  | .debug => 20
  | .info => 30
  | .warn => 40
  | .error => 50
  | .fatal => 60
  | .silent => 70

/-- `shouldLog(threshold, level)` from the transport registry:
`LEVEL_RANK[level] >= LEVEL_RANK[threshold]`. -/
def shouldLog (threshold level : LogLevelName) : Bool :=
  LEVEL_RANK threshold ≤ LEVEL_RANK level

/-- JSON-like runtime values (JavaScript objects, arrays and scalars), the
`unknown` trees the serializer path helpers traverse.  Arrays written past
their length are padded with `vnull` (JavaScript produces holes that read
back as `undefined`; no theorem below exercises that corner). -/
inductive JVal where
  | vnull
  | vbool (b : Bool)
  | vnum (n : Int)
  | vstr (s : String)
  | arr (elems : List JVal)
  | obj (fields : List (String × JVal))

/-- `isRecord` from the serializer module: a plain object. -/
def isRecordJ : JVal → Bool
  | .obj _ => true
  | _ => false

/-- `isContainer` from the serializer module: an array or a plain object. -/
def isContainer : JVal → Bool
  | .arr _ => true
  | .obj _ => true
  | _ => false

/-- `isContainer` applied to a possibly-`undefined` value
(`isContainer(undefined)` is `false` in JavaScript). -/
def isContainerO : Option JVal → Bool
  | some v => isContainer v
  | none => false

/-- Decimal value of a digit string (`Number.parseInt(segment, 10)` on an
all-digit segment). -/
def digitsToNat (cs : List Char) : Nat :=
  cs.foldl (fun acc c => acc * 10 + (c.toNat - 48)) 0

/-- `toArrayIndex` from the serializer module: a segment matching `/^\d+$/`
parsed as a decimal index, `none` otherwise. -/
def toArrayIndex (segment : String) : Option Nat :=
  if segment.toList ≠ [] ∧ segment.toList.all Char.isDigit then
    some (digitsToNat segment.toList)
  else none

/-- First-occurrence lookup of a field in an object field list (JavaScript
object property read). -/
def lookupField : List (String × JVal) → String → Option JVal
  | [], _ => none
  | (k, v) :: rest, key => if k = key then some v else lookupField rest key

/-- Replace the first binding of `key`, or append it (JavaScript object
property write). -/
def assignField : List (String × JVal) → String → JVal → List (String × JVal)
  | [], key, v => [(key, v)]
  | (k, w) :: rest, key, v =>
    if k = key then (k, v) :: rest else (k, w) :: assignField rest key v

/-- Write an array cell, padding with `vnull` past the end (JavaScript
`target[index] = value`). -/
def assignCell (elems : List JVal) (index : Nat) (v : JVal) : List JVal :=
  if index < elems.length then elems.set index v
  else elems ++ List.replicate (index - elems.length) JVal.vnull ++ [v]

/-- `accessProperty` from the serializer module: array index access for
arrays, property access for plain objects, `undefined` otherwise. -/
def accessProperty : JVal → String → Option JVal
  | .arr elems, segment =>
    match toArrayIndex segment with
    | none => none
    | some index => elems[index]?
  | .obj fields, segment => lookupField fields segment
  | _, _ => none

/-- `assignProperty` from the serializer module: writes into an array (for a
numeric segment) or a plain object; a no-op on scalars. -/
def assignProperty (target : JVal) (segment : String) (v : JVal) : JVal :=
  match target with
  | .arr elems =>
    match toArrayIndex segment with
    | none => .arr elems
    | some index => .arr (assignCell elems index v)
  | .obj fields => .obj (assignField fields segment v)
  | other => other

/-- `getByPath` from the serializer module: walks the segments, returning
early when a step yields `undefined` or `null`. -/
def getByPath (v : JVal) : List String → Option JVal
  | [] => some v
  | segment :: rest =>
    match accessProperty v segment with
    | none => none
    | some .vnull => some .vnull
    | some next => getByPath next rest

/-- `setByPath` from the serializer module: walks to the parent, replacing a
missing or non-container intermediate with a fresh `{}`, then writes the
final segment. -/
def setByPath (v : JVal) : List String → JVal → JVal
  | [], _ => v
  | [last], value => assignProperty v last value
  | segment :: rest, value =>
    let child :=
      match accessProperty v segment with
      | some c => if isContainer c then c else JVal.obj []
      | none => JVal.obj []
    assignProperty v segment (setByPath child rest value)

/-- Remove a property from a parent container, as the tail of `deleteByPath`:
array redact splices the element out; object redact deletes an own key.
Returns the updated parent and whether a deletion happened. -/
def removeProp (parent : JVal) (property : String) : JVal × Bool :=
  match parent with
  | .arr elems =>
    match toArrayIndex property with
    | none => (.arr elems, false)
    | some index =>
      if index < elems.length then (.arr (elems.eraseIdx index), true)
      else (.arr elems, false)
  | .obj fields =>
    if (lookupField fields property).isSome then
      (.obj (fields.filter (fun f => f.1 ≠ property)), true)
    else (.obj fields, false)
  | other => (other, false)

/-- `deleteByPath` from the serializer module: resolves the parent path and
removes the final segment from it; `false` when the parent does not resolve
to a container or the key/index is absent. -/
def deleteByPath (v : JVal) : List String → JVal × Bool
  | [] => (v, false)
  | [property] => removeProp v property
  | segment :: rest =>
    match accessProperty v segment with
    | none => (v, false)
    | some .vnull => (v, false)
    | some child =>
      (if (deleteByPath child rest).2 then assignProperty v segment (deleteByPath child rest).1
        else v,
        (deleteByPath child rest).2)

/-- Split a character list on `.` (the behaviour of `path.split(".")`). -/
def splitOnDotAux : List Char → List Char → List (List Char)
  | [], acc => [acc.reverse]
  | c :: rest, acc =>
    if c = '.' then acc.reverse :: splitOnDotAux rest []
    else splitOnDotAux rest (c :: acc)

/-- `getPathSegments` from the serializer module: split on `.` and drop empty
segments (`path.split(".").filter(Boolean)`). -/
def getPathSegments (path : String) : List String :=
  ((splitOnDotAux path.toList []).map (fun cs => String.mk cs)).filter (fun s => s ≠ "")

/-- The two mutating actions a serializer context exposes
(`redact()` and `replace(next)` in `createSerializerContext`). -/
inductive SerAction where
  | redact
  | replace (next : JVal)

/-- Behaviour of one serializer callback: the sequence of context actions it
performs, then an optional thrown error.  (`src/core/types.ts` `Serializer`;
the callback is arbitrary code, modelled by its observable effects.) -/
structure SerializerSpec where
  actions : List SerAction
  thrown : Option String := none

/-- `SerializerTelemetry` from the serializer module. -/
structure SerializerTelemetry where
  executed : Nat := 0
  redacted : Nat := 0
  replaced : Nat := 0
  failed : Nat := 0
  errors : List (String × String) := []
  deriving Repr, DecidableEq

/-- Apply one context action at `segments` of the working record, exactly as
`createSerializerContext` wires `redact`/`replace` to `deleteByPath`/
`setByPath` and bumps the telemetry counters. -/
def applySerAction (record : JVal) (segments : List String)
    (telemetry : SerializerTelemetry) : SerAction → JVal × SerializerTelemetry
  | .redact =>
    ((deleteByPath record segments).1,
      if (deleteByPath record segments).2 then
        { telemetry with redacted := telemetry.redacted + 1 }
      else telemetry)
  | .replace next =>
    (setByPath record segments next,
      { telemetry with replaced := telemetry.replaced + 1 })

/-- Run the action list of one serializer callback. -/
def applySerActions (record : JVal) (segments : List String)
    (telemetry : SerializerTelemetry) :
    List SerAction → JVal × SerializerTelemetry
  | [] => (record, telemetry)
  | action :: rest =>
    applySerActions (applySerAction record segments telemetry action).1 segments
      (applySerAction record segments telemetry action).2 rest

/-- One iteration of the `runSerializers` loop for entry `(key, rule)`:
bump `executed`, try to create the serializer context (skipping when the
segments are empty or the parent of the path is not a container and the path
has more than one segment), run the callback, and catch a thrown error. -/
def runSerializerEntry (record : JVal) (telemetry : SerializerTelemetry)
    (key : String) (rule : SerializerSpec) : JVal × SerializerTelemetry :=
  let telemetry := { telemetry with executed := telemetry.executed + 1 }
  let segments := getPathSegments key
  if segments.isEmpty then (record, telemetry)
  else
    let parent := getByPath record segments.dropLast
    if ¬ isContainerO parent ∧ segments.length > 1 then (record, telemetry)
    else
      let r := applySerActions record segments telemetry rule.actions
      match rule.thrown with
      | none => r
      | some e =>
        (r.1,
          { r.2 with
              failed := r.2.failed + 1
              errors := r.2.errors ++ [(key, e)] })

/-- `runSerializers` from `src/plugins/serializers/index.ts`: the empty map is
a fast path returning the input record; otherwise the record is cloned once
(structural copy, the identity on immutable trees) and the rules run in map
iteration order. -/
def runSerializers (serializers : List (String × SerializerSpec)) (record : JVal) :
    JVal × SerializerTelemetry :=
  match serializers with
  | [] => (record, {})
  | entries =>
    entries.foldl
      (fun (acc : JVal × SerializerTelemetry) entry =>
        runSerializerEntry acc.1 acc.2 entry.1 entry.2)
      (record, {})

/-! ### Hook pipeline (`src/plugins/hooks/index.ts`) -/

/-- A log record, from `src/core/types.ts` (`LogRecord`). -/
structure LogRecordR where
  level : LogLevelName
  timestamp : Nat
  message : String
  bindings : JVal
  context : JVal
  metadata : JVal

/-- `PluginStage` from `src/core/types.ts`. -/
inductive PluginStage where
  | before
  | after
  deriving DecidableEq, Repr

/-- `PluginRegistration` from `src/core/types.ts`, with the hook payload kept
abstract (the source stores a single `hook` field cast per stage). -/
structure PluginRegistrationP (H : Type) where
  name : String
  stage : PluginStage
  hook : H
  order : Option Int := none
  enabled : Option Bool := none

/-- `HookPlan` from the hooks module. -/
structure HookPlanEntry (H : Type) where
  name : String
  order : Int
  hook : H

/-- `PluginExecutionPlan` from the hooks module. -/
structure PluginExecutionPlanP (H : Type) where
  before : List (HookPlanEntry H)
  after : List (HookPlanEntry H)

/-- The comparison the source passes to `Array.prototype.sort`
(`(left, right) => left.order - right.order`, i.e. ascending order). -/
def planLE {H : Type} (l r : HookPlanEntry H) : Prop :=
  l.order ≤ r.order

instance {H : Type} : DecidableRel (@planLE H) :=
  fun l r => inferInstanceAs (Decidable (l.order ≤ r.order))

instance {H : Type} : IsTotal (HookPlanEntry H) planLE :=
  ⟨fun l r => Int.le_total l.order r.order⟩

instance {H : Type} : IsTrans (HookPlanEntry H) planLE :=
  ⟨fun _ _ _ h1 h2 => le_trans h1 h2⟩

/-- The plan entry built for one registration (`order ?? 0`). -/
def toPlanEntry {H : Type} (registration : PluginRegistrationP H) : HookPlanEntry H :=
  { name := registration.name
    order := registration.order.getD 0
    hook := registration.hook }

/-- `buildPluginExecutionPlan` from the hooks module: drop registrations with
`enabled === false`, split by stage preserving insertion order, then sort
each list with JavaScript's stable sort under the ascending comparator. -/
def buildPluginExecutionPlan {H : Type} (registrations : List (PluginRegistrationP H)) :
    PluginExecutionPlanP H :=
  let eligible := registrations.filter (fun r => r.enabled ≠ some false)
  let beforeEntries := (eligible.filter (fun r => r.stage = .before)).map toPlanEntry
  let afterEntries := (eligible.filter (fun r => r.stage = .after)).map toPlanEntry
  { before := beforeEntries.insertionSort planLE
    after := afterEntries.insertionSort planLE }

/-- Behaviour of one before-hook callback: the sequence of `setRecord` calls
it makes on its context, and an optional thrown error (synchronous throw or
rejected promise). -/
structure BeforeHookBehavior where
  run : LogRecordR → List LogRecordR × Option String

/-- `runBeforeHook` from the hooks module: the working record after the hook
is the argument of its last `setRecord` call (shallow-cloned; the identity on
immutable records) or the input record; a thrown error discards any
`setRecord` result because the exception propagates before `nextRecord` is
returned. -/
def runBeforeHook (hook : BeforeHookBehavior) (record : LogRecordR) :
    Except String LogRecordR :=
  match (hook.run record).2 with
  | some e => .error e
  | none => .ok ((hook.run record).1.getLast?.getD record)

/-- `HookTelemetry` from the hooks module. -/
structure HookTelemetry where
  executed : Nat := 0
  failed : Nat := 0
  errors : List (String × String) := []
  deriving Repr, DecidableEq

/-- `runBeforeHooks` from the hooks module: run the plan in order, counting
every hook as executed, catching a thrown error (count it, record
`{name, error}`, leave the working record unchanged) and continuing. -/
def runBeforeHooks (plan : List (HookPlanEntry BeforeHookBehavior))
    (record : LogRecordR) : LogRecordR × HookTelemetry :=
  match plan with
  | [] => (record, {})
  | entry :: rest =>
    match runBeforeHook entry.hook record with
    | .ok next =>
      let r := runBeforeHooks rest next
      (r.1, { r.2 with executed := r.2.executed + 1 })
    | .error e =>
      let r := runBeforeHooks rest record
      (r.1,
        { executed := r.2.executed + 1
          failed := r.2.failed + 1
          errors := (entry.name, e) :: r.2.errors })

/-- `TransportResult` from `src/core/types.ts`: per-transport fan-out result. -/
structure PublishResult where
  transportName : String
  succeeded : Bool
  error : Option String := none
  deriving Repr, DecidableEq

/-- `AfterLogHookContext` from `src/core/types.ts`. -/
structure AfterLogHookContextR where
  record : LogRecordR
  transportResults : List PublishResult

/-- Behaviour of one after-hook callback: observation only, with an optional
thrown error. -/
structure AfterHookBehavior where
  run : AfterLogHookContextR → Option String

/-- `runAfterHooks` from the hooks module: run every hook with the shared
context, catching and recording failures. -/
def runAfterHooks (plan : List (HookPlanEntry AfterHookBehavior))
    (context : AfterLogHookContextR) : HookTelemetry :=
  match plan with
  | [] => {}
  | entry :: rest =>
    let telemetry := runAfterHooks rest context
    match entry.hook.run context with
    | none => { telemetry with executed := telemetry.executed + 1 }
    | some e =>
      { executed := telemetry.executed + 1
        failed := telemetry.failed + 1
        errors := (entry.name, e) :: telemetry.errors }

/-! ### Transport registry (`src/core/transport-registry/index.ts`) -/

/-- A registered transport: the registration data bound to its lifecycle
(`RegisteredTransport` + `TransportLifecycle`).  `publish` is modelled by
the error it throws (if any) per record.  The optional `flush` and
`shutdown` capabilities are modelled with their own failure behaviour:
`none` means the capability is absent, `some none` that it is present and
resolves, `some (some e)` that it is present and throws/rejects with `e` —
the registry never wraps these calls in a `try`, so such an error escapes
the registry operation that awaited it. -/
structure TransportEntry where
  name : String
  level : Option LogLevelName
  pubThrows : LogRecordR → Option String
  flushBehavior : Option (Option String) := none
  shutdownBehavior : Option (Option String) := none

/-- Observable side effects of registry operations, in execution order. -/
inductive RegistryEvent where
  | factoryCalled (name : String)
  | publishCalled (name : String)
  | flushCalled (name : String)
  | shutdownCalled (name : String)
  | entrySet (name : String)
  deriving DecidableEq, Repr

/-- `MAX_FAILURES` from the transport registry. -/
def MAX_FAILURES : Nat := 50

/-- `trimFailures` from the transport registry: keep only the newest
`MAX_FAILURES` entries. -/
def trimFailures (store : List PublishResult) : List PublishResult :=
  if store.length > MAX_FAILURES then store.drop (store.length - MAX_FAILURES) else store

/-- A transport is eligible for a record when it has no threshold or
`shouldLog(threshold, record.level)` holds (the fan-out guard
`transport.level && !shouldLog(...)` skips it otherwise). -/
def eligibleFor (record : LogRecordR) (transport : TransportEntry) : Bool :=
  match transport.level with
  | none => true
  | some threshold => shouldLog threshold record.level

/-- The outcome of one `publish` fan-out.  `escaped = none` means the
returned promise resolved with `results`; `escaped = some e` means an error
thrown inside the loop (a failing transport's recovery `flush`, which the
source awaits inside the `catch` block with no inner `try`) escaped
`publish`, aborting the fan-out — the caller then observes only the
rejection, though the side effects recorded in `failures`/`events` have
already happened. -/
structure PublishOutcome where
  results : List PublishResult
  failures : List PublishResult
  events : List RegistryEvent
  escaped : Option String := none
  deriving DecidableEq, Repr

/-- `publish` from the transport registry: iterate the transports in map
insertion order, skip those whose threshold filters the record out, invoke
`lifecycle.publish` on the rest, catch a thrown error into a
`{transportName, succeeded: false, error}` entry (also appended to the
bounded failure store) and invoke the failing transport's `flush` capability
when present.  That recovery `flush` is not guarded by any inner `try`: when
it throws, the error escapes `publish` and the remaining transports are
never visited (`escaped`). -/
def registryPublish (entries : List TransportEntry) (failures : List PublishResult)
    (record : LogRecordR) : PublishOutcome :=
  match entries with
  | [] => { results := [], failures := failures, events := [] }
  | transport :: rest =>
    if eligibleFor record transport then
      match transport.pubThrows record with
      | none =>
        let r := registryPublish rest failures record
        { r with
            results := { transportName := transport.name, succeeded := true } :: r.results
            events := .publishCalled transport.name :: r.events }
      | some e =>
        let failure : PublishResult :=
          { transportName := transport.name, succeeded := false, error := some e }
        match transport.flushBehavior with
        | some (some fe) =>
          { results := [failure]
            failures := trimFailures (failures ++ [failure])
            events := [.publishCalled transport.name, .flushCalled transport.name]
            escaped := some fe }
        | some none =>
          let r := registryPublish rest (trimFailures (failures ++ [failure])) record
          { r with
              results := failure :: r.results
              events := .publishCalled transport.name ::
                .flushCalled transport.name :: r.events }
        | none =>
          let r := registryPublish rest (trimFailures (failures ++ [failure])) record
          { r with
              results := failure :: r.results
              events := .publishCalled transport.name :: r.events }
    else
      registryPublish rest failures record

/-- `Map.prototype.set` on the name-keyed transport map: replace an existing
entry in place (keeping its original position) or append a new one. -/
def insertReplace : List TransportEntry → TransportEntry → List TransportEntry
  | [], entry => [entry]
  | t :: rest, entry =>
    if t.name = entry.name then entry :: rest else t :: insertReplace rest entry

/-- Find the existing entry of a name (`transports.get(name)`). -/
def findEntry (entries : List TransportEntry) (name : String) : Option TransportEntry :=
  entries.find? (fun t => t.name = name)

/-- A transport registration as validated by `normalizeTransportRegistration`
(name non-empty; the level, when present, is a recognized value by typing;
the config blob is opaque here). -/
structure RegistrationInput where
  name : String
  level : Option LogLevelName := none

/-- `register` from the transport registry: validate the registration, invoke
the factory to obtain the new lifecycle, await the shutdown of any existing
lifecycle of the same name, and only then store the new entry in the map.
The event trace records the order: factory call, optional old shutdown, map
set.  The old shutdown is awaited without an inner `try`: when it rejects,
the error escapes `register` and the map is left unchanged. -/
def registryRegister (entries : List TransportEntry) (registration : RegistrationInput)
    (lifecycle : TransportEntry) :
    Except String (List TransportEntry × List RegistryEvent) :=
  if registration.name = "" then
    .error "Transport must define a non-empty string name."
  else
    let newEntry := { lifecycle with name := registration.name, level := registration.level }
    match findEntry entries registration.name with
    | some old =>
      match old.shutdownBehavior with
      | some (some se) => .error se
      | some none =>
        .ok (insertReplace entries newEntry,
          [RegistryEvent.factoryCalled registration.name,
            RegistryEvent.shutdownCalled old.name,
            RegistryEvent.entrySet registration.name])
      | none =>
        .ok (insertReplace entries newEntry,
          [RegistryEvent.factoryCalled registration.name,
            RegistryEvent.entrySet registration.name])
    | none =>
      .ok (insertReplace entries newEntry,
        [RegistryEvent.factoryCalled registration.name,
          RegistryEvent.entrySet registration.name])

/-! ### Async context manager (`src/core/context/async-storage.ts`) -/

/-- A log context: JavaScript key/value pairs (`LogContext`). -/
abbrev LogContextM := List (String × JVal)

/-- `cloneContext` from the context module: `{ ...context }`, a shallow copy,
the identity on immutable values. -/
def cloneContext (context : LogContextM) : LogContextM := context

/-- State of `createAsyncContextManager`: the configured initial context, the
propagation mode, the module-level fallback context, and the
`AsyncLocalStorage` store of the ambient asynchronous chain (`none` when no
store is entered or the storage is disabled). -/
structure CtxMgr where
  initialContext : LogContextM
  propagateAsync : Bool
  fallbackContext : LogContextM
  store : Option LogContextM

/-- `createAsyncContextManager(options)`. -/
def createCtxMgr (initialContext : LogContextM) (propagateAsync : Bool) : CtxMgr :=
  { initialContext := cloneContext initialContext
    propagateAsync := propagateAsync
    fallbackContext := cloneContext (cloneContext initialContext)
    store := none }

/-- `readActiveContext`: the store (when propagating and entered) or the
fallback. -/
def readActiveContext (m : CtxMgr) : LogContextM :=
  if m.propagateAsync then m.store.getD m.fallbackContext else m.fallbackContext

/-- `getContext()`: a defensive copy of the active context. -/
def getContextM (m : CtxMgr) : LogContextM :=
  cloneContext (readActiveContext m)

/-- `writeContext(next)`: update the fallback and, when propagating, enter
the store with the new context. -/
def writeContext (m : CtxMgr) (next : LogContextM) : CtxMgr :=
  { m with
      fallbackContext := next
      store := if m.propagateAsync then some next else m.store }

/-- `resetContext()`: write a clone of the configured initial context. -/
def resetContextM (m : CtxMgr) : CtxMgr :=
  writeContext m (cloneContext m.initialContext)

/-- `configure(newOptions)`: replace the initial context and propagation
mode, reset the fallback, and disable the storage (the transient
`storage.run(next, noop)` leaves no store behind once the no-op callback
returns). -/
def configureM (m : CtxMgr) (initialContext : LogContextM) (propagateAsync : Bool) : CtxMgr :=
  { m with
      initialContext := cloneContext initialContext
      propagateAsync := propagateAsync
      fallbackContext := cloneContext (cloneContext initialContext)
      store := none }

/-! ### Connector (`src/core/connector.ts`) -/

/-- `ConnectorState` from the connector module. -/
inductive ConnectorState where
  | running
  | stopping
  | stopped
  deriving DecidableEq, Repr

/-- The connector's mutable state: lifecycle state, configured level, the
transport registry it owns (entries + bounded failure store) and the context
manager. -/
structure ConnectorSim where
  state : ConnectorState
  level : LogLevelName
  entries : List TransportEntry
  failures : List PublishResult
  ctxMgr : CtxMgr

/-- `buildLogRecord` from the connector module: snapshot the context, copy
the bindings and metadata (`{ ...x }`, identity on immutable trees), default
the metadata to `{}`. -/
def buildLogRecord (level : LogLevelName) (message : String) (metadata : Option JVal)
    (context : JVal) (bindings : JVal) (timestamp : Nat) : LogRecordR :=
  { level := level
    timestamp := timestamp
    message := message
    bindings := bindings
    context := context
    metadata := metadata.getD (JVal.obj []) }

/-- `PinoCoreLogger.dispatch`: build the record from the level, message,
metadata, current context and logger bindings, then hand that record
directly to the transport registry's `publish` (the raw line write to the
injected backend is not modelled).  No other processing stage appears in the
source of `dispatch`. -/
def dispatch (c : ConnectorSim) (bindings : JVal) (level : LogLevelName)
    (message : String) (metadata : Option JVal) (timestamp : Nat) :
    LogRecordR × PublishOutcome :=
  let context := JVal.obj ((getContextM c.ctxMgr : List (String × JVal)))
  let record := buildLogRecord level message metadata context bindings timestamp
  (record, registryPublish c.entries c.failures record)

/-- In one fan-out that runs to completion (no recovery flush escaped),
`lifecycle.publish` is invoked exactly on the transports whose threshold
accepts the record. -/
theorem publishCalled_mem_iff (entries : List TransportEntry) (failures : List PublishResult)
    (record : LogRecordR) (name : String)
    (hdone : (registryPublish entries failures record).escaped = none) :
    RegistryEvent.publishCalled name ∈ (registryPublish entries failures record).events ↔
    ∃ t ∈ entries, t.name = name ∧ eligibleFor record t = true := by
  induction entries generalizing failures with
  | nil => simp [registryPublish]
  | cons t rest ih =>
    by_cases he : eligibleFor record t
    · cases hp : t.pubThrows record with
      | none =>
        have hdone2 : (registryPublish rest failures record).escaped = none := by
          simpa [registryPublish, he, hp] using hdone
        simp only [registryPublish, he, hp, if_true, List.mem_cons,
          RegistryEvent.publishCalled.injEq, ih failures hdone2]
        constructor
        · rintro (h | ⟨t2, ht2, hn, helig⟩)
          · exact ⟨t, Or.inl rfl, h.symm, he⟩
          · exact ⟨t2, Or.inr ht2, hn, helig⟩
        · rintro ⟨t2, ht2, hn, helig⟩
          rcases ht2 with ht2 | ht2
          · exact Or.inl (ht2 ▸ hn.symm)
          · exact Or.inr ⟨t2, ht2, hn, helig⟩
      | some e =>
        cases hf : t.flushBehavior with
        | none =>
          have hdone2 : (registryPublish rest
              (trimFailures (failures ++
                [{ transportName := t.name, succeeded := false, error := some e }]))
              record).escaped = none := by
            simpa [registryPublish, he, hp, hf] using hdone
          simp only [registryPublish, he, hp, hf, if_true, List.mem_cons,
            RegistryEvent.publishCalled.injEq, ih _ hdone2]
          constructor
          · rintro (h | ⟨t2, ht2, hn, helig⟩)
            · exact ⟨t, Or.inl rfl, h.symm, he⟩
            · exact ⟨t2, Or.inr ht2, hn, helig⟩
          · rintro ⟨t2, ht2, hn, helig⟩
            rcases ht2 with ht2 | ht2
            · exact Or.inl (ht2 ▸ hn.symm)
            · exact Or.inr ⟨t2, ht2, hn, helig⟩
        | some fo =>
          cases fo with
          | none =>
            have hdone2 : (registryPublish rest
                (trimFailures (failures ++
                  [{ transportName := t.name, succeeded := false, error := some e }]))
                record).escaped = none := by
              simpa [registryPublish, he, hp, hf] using hdone
            simp only [registryPublish, he, hp, hf, if_true, List.mem_cons,
              RegistryEvent.publishCalled.injEq, reduceCtorEq, false_or,
              ih _ hdone2]
            constructor
            · rintro (h | ⟨t2, ht2, hn, helig⟩)
              · exact ⟨t, Or.inl rfl, h.symm, he⟩
              · exact ⟨t2, Or.inr ht2, hn, helig⟩
            · rintro ⟨t2, ht2, hn, helig⟩
              rcases ht2 with ht2 | ht2
              · exact Or.inl (ht2 ▸ hn.symm)
              · exact Or.inr ⟨t2, ht2, hn, helig⟩
          | some fe =>
            exfalso
            simp [registryPublish, he, hp, hf] at hdone
    · have hdone2 : (registryPublish rest failures record).escaped = none := by
        simpa [registryPublish, he] using hdone
      rw [show registryPublish (t :: rest) failures record =
          registryPublish rest failures record by
        simp [registryPublish, he]]
      rw [ih failures hdone2]
      constructor
      · rintro ⟨t2, ht2, hn, helig⟩
        exact ⟨t2, List.mem_cons_of_mem t ht2, hn, helig⟩
      · rintro ⟨t2, ht2, hn, helig⟩
        rcases List.mem_cons.mp ht2 with ht2 | ht2
        · exact absurd helig (ht2 ▸ he)
        · exact ⟨t2, ht2, hn, helig⟩

/-- C4 counterexample: the claim says the `silent` threshold matches no
record, but a transport muted with threshold `silent` still receives a
record whose level is `silent` (the generic `log` method accepts every
`LogLevelName`), because `LEVEL_RANK[silent] >= LEVEL_RANK[silent]`. -/
theorem C4_silent_threshold_counterexample :
    RegistryEvent.publishCalled "mute" ∈
      (registryPublish
        [{ name := "mute", level := some .silent, pubThrows := fun _ => none }] []
        { level := .silent, timestamp := 0, message := "m",
          bindings := JVal.obj [], context := JVal.obj [], metadata := JVal.obj [] }).events := by
  simp [registryPublish, eligibleFor, shouldLog, LEVEL_RANK]

/-- C4 (amended): for every registered transport and record, a fan-out that
runs to completion (no recovery flush of an earlier failing sink escaped and
aborted it) invokes that transport's `publish` iff it has no threshold or
`LEVEL_RANK[record.level] >= LEVEL_RANK[threshold]` under the fixed order
trace < debug < info < warn < error < fatal < silent; the `silent` threshold
mutes the transport for every record except one explicitly logged at level
`silent`. -/
theorem C4_threshold_gate (entries : List TransportEntry) (failures : List PublishResult)
    (record : LogRecordR) (t : TransportEntry) (hmem : t ∈ entries)
    (hnodup : (entries.map (fun t2 => t2.name)).Nodup)
    (hdone : (registryPublish entries failures record).escaped = none) :
    (RegistryEvent.publishCalled t.name ∈ (registryPublish entries failures record).events ↔
      (t.level = none ∨
        ∃ threshold, t.level = some threshold ∧
          LEVEL_RANK threshold ≤ LEVEL_RANK record.level)) ∧
    (t.level = some .silent → record.level ≠ .silent →
      RegistryEvent.publishCalled t.name ∉ (registryPublish entries failures record).events) := by
  have hinj := List.inj_on_of_nodup_map hnodup
  have hmain : RegistryEvent.publishCalled t.name ∈
      (registryPublish entries failures record).events ↔ eligibleFor record t = true := by
    rw [publishCalled_mem_iff entries failures record t.name hdone]
    constructor
    · rintro ⟨t2, ht2, hn, helig⟩
      have : t2 = t := hinj ht2 hmem hn
      exact this ▸ helig
    · intro helig
      exact ⟨t, hmem, rfl, helig⟩
  constructor
  · rw [hmain]
    cases hl : t.level with
    | none => simp [eligibleFor, hl]
    | some threshold =>
      simp only [eligibleFor, hl, shouldLog, decide_eq_true_eq, reduceCtorEq, false_or,
        Option.some.injEq]
      constructor
      · intro h
        exact ⟨threshold, rfl, h⟩
      · rintro ⟨th2, hth2, h⟩
        exact hth2 ▸ h
  · intro hsilent hne
    rw [hmain]
    simp only [eligibleFor, hsilent, shouldLog, LEVEL_RANK]
    cases hl : record.level <;> simp_all [LEVEL_RANK]

/-- C4 witness: on a registry holding a `silent`-muted transport, an `info`
record is filtered out. -/
theorem C4_threshold_gate_witness :
    RegistryEvent.publishCalled "mute" ∉
      (registryPublish
        [{ name := "mute", level := some .silent, pubThrows := fun _ => none }] []
        { level := .info, timestamp := 0, message := "m",
          bindings := JVal.obj [], context := JVal.obj [], metadata := JVal.obj [] }).events :=
  (C4_threshold_gate
      [{ name := "mute", level := some .silent, pubThrows := fun _ => none }] []
      { level := .info, timestamp := 0, message := "m",
        bindings := JVal.obj [], context := JVal.obj [], metadata := JVal.obj [] }
      { name := "mute", level := some .silent, pubThrows := fun _ => none }
      (List.mem_singleton.mpr rfl) (by simp) rfl).2 rfl (by simp)

/-- C10 (part one): a fan-out that runs to completion returns one result per
eligible transport, in the registry's insertion order. -/
theorem registryPublish_results_names (entries : List TransportEntry)
    (failures : List PublishResult) (record : LogRecordR)
    (hdone : (registryPublish entries failures record).escaped = none) :
    (registryPublish entries failures record).results.map (fun r => r.transportName) =
      (entries.filter (eligibleFor record)).map (fun t => t.name) := by
  induction entries generalizing failures with
  | nil => simp [registryPublish]
  | cons t rest ih =>
    by_cases he : eligibleFor record t
    · cases hp : t.pubThrows record with
      | none =>
        have hdone2 : (registryPublish rest failures record).escaped = none := by
          simpa [registryPublish, he, hp] using hdone
        simp [registryPublish, he, hp, ih _ hdone2]
      | some e =>
        cases hf : t.flushBehavior with
        | none =>
          have hdone2 : (registryPublish rest
              (trimFailures (failures ++
                [{ transportName := t.name, succeeded := false, error := some e }]))
              record).escaped = none := by
            simpa [registryPublish, he, hp, hf] using hdone
          simp [registryPublish, he, hp, hf, ih _ hdone2]
        | some fo =>
          cases fo with
          | none =>
            have hdone2 : (registryPublish rest
                (trimFailures (failures ++
                  [{ transportName := t.name, succeeded := false, error := some e }]))
                record).escaped = none := by
              simpa [registryPublish, he, hp, hf] using hdone
            simp [registryPublish, he, hp, hf, ih _ hdone2]
          | some fe =>
            exfalso
            simp [registryPublish, he, hp, hf] at hdone
    · have hdone2 : (registryPublish rest failures record).escaped = none := by
        simpa [registryPublish, he] using hdone
      simp [registryPublish, he, ih _ hdone2]

/-- C10: a completed `publish` produces its results in the transport map\x27s
insertion order restricted to the transports whose threshold the record
satisfies, and re-registering an existing name keeps the transport\x27s
original position, so the result order is stable across calls on the same
registry state. -/
theorem C10_publish_order (entries : List TransportEntry) (failures : List PublishResult)
    (record : LogRecordR) (entry : TransportEntry)
    (hmem : entry.name ∈ entries.map (fun t => t.name))
    (hdone : (registryPublish entries failures record).escaped = none) :
    (registryPublish entries failures record).results.map (fun r => r.transportName) =
      (entries.filter (eligibleFor record)).map (fun t => t.name) ∧
    (insertReplace entries entry).map (fun t => t.name) =
      entries.map (fun t => t.name) := by
  refine ⟨registryPublish_results_names entries failures record hdone, ?_⟩
  clear hdone
  induction entries with
  | nil => simp at hmem
  | cons t rest ih =>
    by_cases hn : t.name = entry.name
    · simp [insertReplace, hn]
    · have hmem2 : entry.name ∈ rest.map (fun t => t.name) := by
        rcases List.mem_cons.mp hmem with h | h
        · exact absurd h.symm hn
        · exact h
      simp [insertReplace, hn, ih hmem2]

/-- C10 witness: a concrete two-transport registry where only the first is
eligible, re-registered under its existing name. -/
theorem C10_publish_order_witness :
    (registryPublish
        [{ name := "a", level := none, pubThrows := fun _ => none },
          { name := "b", level := some .fatal, pubThrows := fun _ => none }] []
        { level := .info, timestamp := 0, message := "m",
          bindings := JVal.obj [], context := JVal.obj [], metadata := JVal.obj [] }).results.map
        (fun r => r.transportName) =
      (([{ name := "a", level := none, pubThrows := fun _ => none },
          { name := "b", level := some .fatal, pubThrows := fun _ => none }] :
            List TransportEntry).filter
          (eligibleFor
            { level := .info, timestamp := 0, message := "m",
              bindings := JVal.obj [], context := JVal.obj [], metadata := JVal.obj [] })).map
        (fun t => t.name) ∧
    (insertReplace
        [{ name := "a", level := none, pubThrows := fun _ => none },
          { name := "b", level := some .fatal, pubThrows := fun _ => none }]
        { name := "b", level := some .warn, pubThrows := fun _ => none }).map
        (fun t => t.name) =
      ([{ name := "a", level := none, pubThrows := fun _ => none },
        { name := "b", level := some .fatal, pubThrows := fun _ => none }] :
          List TransportEntry).map (fun t => t.name) :=
  C10_publish_order
    [{ name := "a", level := none, pubThrows := fun _ => none },
      { name := "b", level := some .fatal, pubThrows := fun _ => none }] []
    { level := .info, timestamp := 0, message := "m",
      bindings := JVal.obj [], context := JVal.obj [], metadata := JVal.obj [] }
    { name := "b", level := some .warn, pubThrows := fun _ => none }
    (by simp) rfl

/-- A prefix of eligible, non-throwing transports contributes one success
result and one `publish` invocation each, leaving the failure store and the
escape status of the remaining fan-out alone. -/
theorem registryPublish_ok_front (pre rest : List TransportEntry)
    (failures : List PublishResult) (record : LogRecordR)
    (h : ∀ t ∈ pre, eligibleFor record t = true ∧ t.pubThrows record = none) :
    registryPublish (pre ++ rest) failures record =
      { results := pre.map (fun t => { transportName := t.name, succeeded := true }) ++
          (registryPublish rest failures record).results
        failures := (registryPublish rest failures record).failures
        events := pre.map (fun t => RegistryEvent.publishCalled t.name) ++
          (registryPublish rest failures record).events
        escaped := (registryPublish rest failures record).escaped } := by
  induction pre with
  | nil => rfl
  | cons t pre2 ih =>
    have ht := h t (List.mem_cons_self t pre2)
    have h2 : ∀ t2 ∈ pre2, eligibleFor record t2 = true ∧ t2.pubThrows record = none :=
      fun t2 ht2 => h t2 (List.mem_cons_of_mem t ht2)
    simp [registryPublish, ht.1, ht.2, ih h2]

/-- A concrete quiet transport named `a`. -/
def sinkA : TransportEntry := { name := "a", level := none, pubThrows := fun _ => none }

/-- A concrete transport named `b` that throws `boom` on publish and whose
flush capability resolves. -/
def sinkB : TransportEntry :=
  { name := "b", level := none, pubThrows := fun _ => some "boom",
    flushBehavior := some none }

/-- A concrete transport named `b` that throws `boom` on publish and whose
recovery flush itself throws `flushboom`. -/
def sinkBoth : TransportEntry :=
  { name := "b", level := none, pubThrows := fun _ => some "boom",
    flushBehavior := some (some "flushboom") }

/-- A concrete quiet transport named `c`. -/
def sinkC : TransportEntry := { name := "c", level := none, pubThrows := fun _ => none }

/-- A concrete `info` record. -/
def recInfo : LogRecordR :=
  { level := .info, timestamp := 0, message := "m",
    bindings := JVal.obj [], context := JVal.obj [], metadata := JVal.obj [] }

/-- C3 counterexample: with three no-threshold transports of which exactly
one throws on `publish`, but whose recovery `flush` (awaited inside the
`catch` with no inner `try`) also throws, the fan-out aborts: the flush
error escapes `publish` (the promise rejects instead of returning results),
only two result entries were accumulated instead of three, and the third
sink never receives the record — refuting the claim\x27s `N results`,
`no exception propagates` and `every other sink still receives` conclusions
in its own scenario. -/
theorem C3_flush_escape_counterexample :
    (registryPublish [sinkA, sinkBoth, sinkC] [] recInfo).escaped = some "flushboom" ∧
    (registryPublish [sinkA, sinkBoth, sinkC] [] recInfo).results.length = 2 ∧
    RegistryEvent.publishCalled "c" ∉
      (registryPublish [sinkA, sinkBoth, sinkC] [] recInfo).events := by
  refine ⟨rfl, rfl, ?_⟩
  decide

/-- C3 (amended): with `N` registered transports all of whose thresholds
accept the record and exactly one of which throws on `publish`, provided the
failing transport\x27s recovery `flush` capability is present and resolves,
the fan-out still returns `N` results in order, the failing transport\x27s
entry carries `succeeded = false` with the thrown error, every other
transport still has its `publish` invoked, the failing transport\x27s `flush`
is invoked exactly once, and no exception escapes `publish`
(`escaped = none`); when that recovery flush instead throws, the error
escapes `publish` and aborts the fan-out. -/
theorem C3_per_sink_isolation (pre post : List TransportEntry) (bad : TransportEntry)
    (failures : List PublishResult) (record : LogRecordR) (e : String)
    (helig : ∀ t ∈ pre ++ bad :: post, eligibleFor record t = true)
    (hgood : ∀ t ∈ pre ++ post, t.pubThrows record = none)
    (hbad : bad.pubThrows record = some e)
    (hflush : bad.flushBehavior = some none) :
    (registryPublish (pre ++ bad :: post) failures record).escaped = none ∧
    (registryPublish (pre ++ bad :: post) failures record).results.length =
      (pre ++ bad :: post).length ∧
    (registryPublish (pre ++ bad :: post) failures record).results =
      pre.map (fun t => { transportName := t.name, succeeded := true }) ++
        ({ transportName := bad.name, succeeded := false, error := some e } ::
          post.map (fun t => { transportName := t.name, succeeded := true })) ∧
    (∀ t ∈ pre ++ post,
      RegistryEvent.publishCalled t.name ∈
        (registryPublish (pre ++ bad :: post) failures record).events) ∧
    (registryPublish (pre ++ bad :: post) failures record).events.count
      (RegistryEvent.flushCalled bad.name) = 1 := by
  have hpre : ∀ t ∈ pre, eligibleFor record t = true ∧ t.pubThrows record = none :=
    fun t ht => ⟨helig t (List.mem_append_left _ ht), hgood t (List.mem_append_left _ ht)⟩
  have hpost : ∀ t ∈ post, eligibleFor record t = true ∧ t.pubThrows record = none :=
    fun t ht =>
      ⟨helig t (List.mem_append_right _ (List.mem_cons_of_mem bad ht)),
        hgood t (List.mem_append_right _ ht)⟩
  have hbadE : eligibleFor record bad = true :=
    helig bad (List.mem_append_right _ (List.mem_cons_self bad post))
  have hmid :
      registryPublish (bad :: post) failures record =
        { results := { transportName := bad.name, succeeded := false, error := some e } ::
            (registryPublish post
              (trimFailures (failures ++
                [{ transportName := bad.name, succeeded := false, error := some e }]))
              record).results
          failures := (registryPublish post
            (trimFailures (failures ++
              [{ transportName := bad.name, succeeded := false, error := some e }]))
            record).failures
          events := RegistryEvent.publishCalled bad.name ::
            RegistryEvent.flushCalled bad.name ::
            (registryPublish post
              (trimFailures (failures ++
                [{ transportName := bad.name, succeeded := false, error := some e }]))
              record).events
          escaped := (registryPublish post
            (trimFailures (failures ++
              [{ transportName := bad.name, succeeded := false, error := some e }]))
            record).escaped } := by
    simp [registryPublish, hbadE, hbad, hflush]
  have hpostEq := registryPublish_ok_front post []
    (trimFailures (failures ++
      [{ transportName := bad.name, succeeded := false, error := some e }]))
    record hpost
  rw [List.append_nil] at hpostEq
  rw [registryPublish_ok_front pre (bad :: post) failures record hpre, hmid, hpostEq]
  simp only [registryPublish]
  refine ⟨by trivial, by simp, by simp, ?_, ?_⟩
  · intro t ht
    rcases List.mem_append.mp ht with ht | ht
    · exact List.mem_append_left _ (List.mem_map_of_mem _ ht)
    · refine List.mem_append_right _ ?_
      exact List.mem_cons_of_mem _ (List.mem_cons_of_mem _
        (List.mem_append_left _ (List.mem_map_of_mem _ ht)))
  · have hcount : ∀ xs : List TransportEntry,
        (xs.map (fun t => RegistryEvent.publishCalled t.name)).count
          (RegistryEvent.flushCalled bad.name) = 0 := by
      intro xs
      rw [List.count_eq_zero]
      intro hmem
      rcases List.mem_map.mp hmem with ⟨t, _, ht⟩
      exact absurd ht (by simp)
    simp [List.count_append, List.count_cons, hcount]

/-- C3 witness: three transports without thresholds, the middle one throwing
`boom` with a resolving `flush` capability: three results in order, the
middle one failed with the error, one recovery flush, and no escape. -/
theorem C3_per_sink_isolation_witness :
    (registryPublish [sinkA, sinkB, sinkC] [] recInfo).results =
      [{ transportName := "a", succeeded := true },
        { transportName := "b", succeeded := false, error := some "boom" },
        { transportName := "c", succeeded := true }] ∧
    (registryPublish [sinkA, sinkB, sinkC] [] recInfo).events.count
      (RegistryEvent.flushCalled "b") = 1 ∧
    (registryPublish [sinkA, sinkB, sinkC] [] recInfo).escaped = none := by
  have h := C3_per_sink_isolation [sinkA] [sinkC] sinkB [] recInfo "boom"
    (by intro t ht; fin_cases ht <;> rfl)
    (by intro t ht; fin_cases ht <;> rfl)
    rfl rfl
  exact ⟨h.2.2.1, h.2.2.2.2, h.1⟩

/-- Replacing an entry whose name is already a key keeps the key sequence of
the map unchanged. -/
theorem insertReplace_map_name (entries : List TransportEntry) (entry : TransportEntry)
    (hmem : entry.name ∈ entries.map (fun t => t.name)) :
    (insertReplace entries entry).map (fun t => t.name) =
      entries.map (fun t => t.name) := by
  induction entries with
  | nil => simp at hmem
  | cons t rest ih =>
    by_cases hn : t.name = entry.name
    · simp [insertReplace, hn]
    · have hmem2 : entry.name ∈ rest.map (fun t => t.name) := by
        rcases List.mem_cons.mp hmem with h | h
        · exact absurd h.symm hn
        · exact h
      simp [insertReplace, hn, ih hmem2]

/-- After an insert-or-replace, looking the name up yields the new entry. -/
theorem findEntry_insertReplace (entries : List TransportEntry) (entry : TransportEntry) :
    findEntry (insertReplace entries entry) entry.name = some entry := by
  induction entries with
  | nil => simp [insertReplace, findEntry, List.find?]
  | cons t rest ih =>
    by_cases hn : t.name = entry.name
    · simp [insertReplace, hn, findEntry, List.find?]
    · simp only [insertReplace, hn, if_false, findEntry, List.find?] at ih ⊢
      simp [hn, ih]

/-- C5: registering a name that already has an entry atomically replaces it:
the call succeeds, the map keeps exactly its key sequence (so it never holds
two entries for one name), the name now maps to the new lifecycle, and in
the event order the old lifecycle's shutdown strictly precedes the map
update, so the sequential trace never runs two lifecycles for one name
concurrently. -/
theorem C5_register_replaces_atomically (entries : List TransportEntry)
    (registration : RegistrationInput) (lifecycle old : TransportEntry)
    (hname : registration.name ≠ "")
    (hnodup : (entries.map (fun t => t.name)).Nodup)
    (hold : findEntry entries registration.name = some old)
    (hshut : old.shutdownBehavior = some none) :
    ∃ entries2 events,
      registryRegister entries registration lifecycle = .ok (entries2, events) ∧
      entries2.map (fun t => t.name) = entries.map (fun t => t.name) ∧
      (entries2.map (fun t => t.name)).Nodup ∧
      findEntry entries2 registration.name =
        some { lifecycle with name := registration.name, level := registration.level } ∧
      ∃ i j : Nat, i < j ∧
        events[i]? = some (RegistryEvent.shutdownCalled registration.name) ∧
        events[j]? = some (RegistryEvent.entrySet registration.name) := by
  have holdName : old.name = registration.name := by
    have := List.find?_some hold
    exact of_decide_eq_true this
  have hmem : registration.name ∈ entries.map (fun t => t.name) := by
    have := List.mem_of_find?_eq_some hold
    exact holdName ▸ List.mem_map_of_mem _ this
  refine ⟨insertReplace entries
      { lifecycle with name := registration.name, level := registration.level },
    [RegistryEvent.factoryCalled registration.name,
      RegistryEvent.shutdownCalled old.name,
      RegistryEvent.entrySet registration.name],
    ?_, ?_, ?_, ?_, 1, 2, by omega, by simp [holdName], by simp⟩
  · simp [registryRegister, hname, hold, hshut]
  · exact insertReplace_map_name entries _ hmem
  · rw [insertReplace_map_name entries _ hmem]
    exact hnodup
  · exact findEntry_insertReplace entries _

/-- C5 witness: re-registering the name `b` over an existing entry with a
resolving shutdown capability. -/
theorem C5_register_replaces_atomically_witness :
    ∃ entries2 events,
      registryRegister
          [{ name := "b", level := some .warn, pubThrows := fun _ => none,
              shutdownBehavior := some none }]
          { name := "b", level := some .fatal }
          { name := "x", level := none, pubThrows := fun _ => some "boom" } =
        .ok (entries2, events) ∧
      entries2.map (fun t => t.name) =
        ([{ name := "b", level := some .warn, pubThrows := fun _ => none,
            shutdownBehavior := some none }] : List TransportEntry).map (fun t => t.name) ∧
      (entries2.map (fun t => t.name)).Nodup ∧
      findEntry entries2 "b" =
        some { name := "b", level := some .fatal, pubThrows := fun _ => some "boom",
                flushBehavior := none, shutdownBehavior := none } ∧
      ∃ i j : Nat, i < j ∧
        events[i]? = some (RegistryEvent.shutdownCalled "b") ∧
        events[j]? = some (RegistryEvent.entrySet "b") :=
  C5_register_replaces_atomically
    [{ name := "b", level := some .warn, pubThrows := fun _ => none,
        shutdownBehavior := some none }]
    { name := "b", level := some .fatal }
    { name := "x", level := none, pubThrows := fun _ => some "boom" }
    { name := "b", level := some .warn, pubThrows := fun _ => none,
        shutdownBehavior := some none }
    (by simp) (by simp) (by simp [findEntry, List.find?]) rfl

/-- Running a before-hook plan decomposes over list append: the second part
starts from the record the first part produced, and the telemetry counters
and error lists add up in order. -/
theorem runBeforeHooks_append (xs ys : List (HookPlanEntry BeforeHookBehavior))
    (record : LogRecordR) :
    runBeforeHooks (xs ++ ys) record =
      ((runBeforeHooks ys (runBeforeHooks xs record).1).1,
        { executed := (runBeforeHooks xs record).2.executed +
            (runBeforeHooks ys (runBeforeHooks xs record).1).2.executed
          failed := (runBeforeHooks xs record).2.failed +
            (runBeforeHooks ys (runBeforeHooks xs record).1).2.failed
          errors := (runBeforeHooks xs record).2.errors ++
            (runBeforeHooks ys (runBeforeHooks xs record).1).2.errors }) := by
  induction xs generalizing record with
  | nil => simp [runBeforeHooks]
  | cons entry rest ih =>
    cases hr : runBeforeHook entry.hook record with
    | ok next =>
      simp only [List.cons_append, runBeforeHooks, hr, List.append_eq]
      rw [ih next]
      simp only [Prod.mk.injEq, HookTelemetry.mk.injEq]
      refine ⟨?_, ?_, ?_, ?_⟩ <;> first | trivial | omega | simp
    | error e =>
      simp only [List.cons_append, runBeforeHooks, hr, List.append_eq]
      rw [ih record]
      simp only [Prod.mk.injEq, HookTelemetry.mk.injEq]
      refine ⟨?_, ?_, ?_, ?_⟩ <;> first | trivial | omega | simp

/-- C6: when a hook of the plan throws on the record it receives (even after
calling the mutation function, whose pending `nextRecord` is discarded by
the propagating exception), `runBeforeHooks` counts it as executed and
failed, records the `{name, error}` entry, continues with the remaining
hooks on the record unchanged by the failed hook, and returns normally
(`runBeforeHooks` is total, so no error reaches the caller). -/
theorem C6_before_hook_failure_isolated (pre post : List (HookPlanEntry BeforeHookBehavior))
    (entry : HookPlanEntry BeforeHookBehavior) (record : LogRecordR) (e : String)
    (calls : List LogRecordR)
    (hthrow : entry.hook.run (runBeforeHooks pre record).1 = (calls, some e)) :
    runBeforeHooks (pre ++ entry :: post) record =
      ((runBeforeHooks post (runBeforeHooks pre record).1).1,
        { executed := (runBeforeHooks pre record).2.executed + 1 +
            (runBeforeHooks post (runBeforeHooks pre record).1).2.executed
          failed := (runBeforeHooks pre record).2.failed + 1 +
            (runBeforeHooks post (runBeforeHooks pre record).1).2.failed
          errors := (runBeforeHooks pre record).2.errors ++
            ((entry.name, e) ::
              (runBeforeHooks post (runBeforeHooks pre record).1).2.errors) }) := by
  have hmid : runBeforeHook entry.hook (runBeforeHooks pre record).1 = .error e := by
    simp [runBeforeHook, hthrow]
  rw [runBeforeHooks_append pre (entry :: post) record]
  simp only [runBeforeHooks, hmid, Prod.mk.injEq, HookTelemetry.mk.injEq]
  refine ⟨?_, ?_, ?_, ?_⟩ <;> first | trivial | omega | simp

/-- A concrete before-hook that calls the mutation function and then throws. -/
def hookBad : HookPlanEntry BeforeHookBehavior :=
  { name := "bad", order := 0,
    hook := { run := fun r => ([{ r with message := "mutated" }], some "boom") } }

/-- A concrete before-hook that appends `-post` to the message. -/
def hookPost : HookPlanEntry BeforeHookBehavior :=
  { name := "post", order := 0,
    hook := { run := fun r => ([{ r with message := r.message ++ "-post" }], none) } }

/-- C6 witness: a throwing hook that mutated the record first leaves no trace
on the record seen by the next hook, while the telemetry records the
failure. -/
theorem C6_before_hook_failure_isolated_witness :
    runBeforeHooks [hookBad, hookPost] recInfo =
      ({ recInfo with message := "m-post" },
        { executed := 2, failed := 1, errors := [("bad", "boom")] }) := by
  have h := C6_before_hook_failure_isolated [] [hookPost] hookBad recInfo "boom"
    [{ recInfo with message := "mutated" }] rfl
  simpa [runBeforeHooks, runBeforeHook, hookPost, recInfo] using h

/-- Stability of the plan sort: the ascending insertion sort never reorders
entries of equal `order`, so filtering one order class returns it in
insertion order. -/
theorem filter_insertionSort_order {H : Type} (l : List (HookPlanEntry H)) (o : Int) :
    (l.insertionSort planLE).filter (fun p => p.order = o) =
      l.filter (fun p => p.order = o) := by
  induction l with
  | nil => rfl
  | cons a l ih =>
    have hsplit :
        ((l.insertionSort planLE).takeWhile fun b => ¬ planLE a b).filter
            (fun p => p.order = o) ++
          ((l.insertionSort planLE).dropWhile fun b => ¬ planLE a b).filter
            (fun p => p.order = o) =
          l.filter (fun p => p.order = o) := by
      rw [← List.filter_append,
        List.takeWhile_append_dropWhile (fun b => ¬ planLE a b) (l.insertionSort planLE),
        ih]
    rw [List.insertionSort, List.orderedInsert_eq_take_drop, List.filter_append]
    by_cases ha : a.order = o
    · have htake :
          ((l.insertionSort planLE).takeWhile fun b => ¬ planLE a b).filter
            (fun p => p.order = o) = [] := by
        rw [List.filter_eq_nil_iff]
        intro b hb
        have hb2 := List.mem_takeWhile_imp hb
        simp only [decide_eq_true_eq, planLE, not_le] at hb2
        simp only [decide_eq_true_eq]
        omega
      rw [htake] at hsplit ⊢
      rw [List.nil_append] at hsplit ⊢
      rw [List.filter_cons_of_pos (by simp [ha]),
        List.filter_cons_of_pos (by simp [ha]), hsplit]
    · rw [List.filter_cons_of_neg (by simp [ha]),
        List.filter_cons_of_neg (by simp [ha]), hsplit]

/-- Two after-stage registrations with orders `5` and `-10`, in that
insertion order. -/
def afterRegsCE : List (PluginRegistrationP Unit) :=
  [{ name := "last", stage := .after, hook := (), order := some 5 },
    { name := "first", stage := .after, hook := (), order := some (-10) }]

/-- C2 counterexample: the execution plan's after-stage hooks are NOT ordered
descending by their numeric order — the source sorts both stages with the
same ascending comparator (`left.order - right.order`), and the repository's
own hook test expects ascending after-hook execution. -/
theorem C2_after_descending_counterexample :
    ¬ ((buildPluginExecutionPlan afterRegsCE).after.map
        (fun p => p.order)).Sorted (fun a b => a ≥ b) := by
  intro h
  have : (buildPluginExecutionPlan afterRegsCE).after.map (fun p => p.order) =
      [-10, 5] := by rfl
  rw [this] at h
  have := List.rel_of_sorted_cons h 5 (by simp)
  omega

/-- C2 (amended): building the execution plan excludes every registration
with `enabled = false`; both the before-stage and the after-stage hooks are
ordered ascending by their numeric order, with ties broken by insertion
order (each plan is a sorted permutation of the stage's enabled
registrations that preserves the relative order of equal-order entries). -/
theorem C2_plan_filter_and_stable_sort {H : Type}
    (registrations : List (PluginRegistrationP H)) :
    ((buildPluginExecutionPlan registrations).before.Perm
        (((registrations.filter (fun r => r.enabled ≠ some false)).filter
            (fun r => r.stage = .before)).map toPlanEntry) ∧
      (buildPluginExecutionPlan registrations).before.Sorted planLE ∧
      (∀ o : Int,
        (buildPluginExecutionPlan registrations).before.filter (fun p => p.order = o) =
          (((registrations.filter (fun r => r.enabled ≠ some false)).filter
              (fun r => r.stage = .before)).map toPlanEntry).filter
            (fun p => p.order = o))) ∧
    ((buildPluginExecutionPlan registrations).after.Perm
        (((registrations.filter (fun r => r.enabled ≠ some false)).filter
            (fun r => r.stage = .after)).map toPlanEntry) ∧
      (buildPluginExecutionPlan registrations).after.Sorted planLE ∧
      (∀ o : Int,
        (buildPluginExecutionPlan registrations).after.filter (fun p => p.order = o) =
          (((registrations.filter (fun r => r.enabled ≠ some false)).filter
              (fun r => r.stage = .after)).map toPlanEntry).filter
            (fun p => p.order = o))) :=
  ⟨⟨List.perm_insertionSort planLE _,
      List.sorted_insertionSort planLE _,
      fun o => filter_insertionSort_order _ o⟩,
    ⟨List.perm_insertionSort planLE _,
      List.sorted_insertionSort planLE _,
      fun o => filter_insertionSort_order _ o⟩⟩

/-- Writing a key into an object field list makes the key read back as the
new value. -/
theorem lookupField_assignField_self (fields : List (String × JVal)) (key : String)
    (v : JVal) : lookupField (assignField fields key v) key = some v := by
  induction fields with
  | nil => simp [assignField, lookupField]
  | cons f rest ih =>
    by_cases hk : f.1 = key
    · simp [assignField, hk, lookupField]
    · simp [assignField, hk, lookupField, ih]

/-- Writing one key into an object leaves every other key unchanged. -/
theorem lookupField_assignField_other (fields : List (String × JVal)) (key key2 : String)
    (v : JVal) (hne : key2 ≠ key) :
    lookupField (assignField fields key v) key2 = lookupField fields key2 := by
  induction fields with
  | nil =>
    simp only [assignField, lookupField]
    rw [if_neg (fun h => hne h.symm)]
  | cons f rest ih =>
    obtain ⟨k, w⟩ := f
    by_cases hk : k = key
    · subst hk
      simp only [assignField, if_pos rfl, lookupField]
      rw [if_neg (fun h2 => hne h2.symm), if_neg (fun h2 => hne h2.symm)]
    · simp only [assignField, if_neg hk, lookupField, ih]

/-- After `assignProperty` over an existing property, reading that property
yields the new value. -/
theorem accessProperty_assign_self (v : JVal) (s : String) (c c2 : JVal)
    (h : accessProperty v s = some c) :
    accessProperty (assignProperty v s c2) s = some c2 := by
  cases v with
  | arr elems =>
    cases hidx : toArrayIndex s with
    | none => simp [accessProperty, hidx] at h
    | some i =>
      simp only [accessProperty, hidx] at h
      have hlt : i < elems.length := by
        by_contra hge
        rw [List.getElem?_eq_none (Nat.le_of_not_lt hge)] at h
        exact absurd h (by simp)
      simp only [assignProperty, hidx, assignCell, if_pos hlt, accessProperty]
      rw [List.getElem?_set_self]
      exact hlt
  | obj fields =>
    simp only [assignProperty, accessProperty]
    exact lookupField_assignField_self fields s c2
  | vnull => exact absurd h (by simp [accessProperty])
  | vbool b => exact absurd h (by simp [accessProperty])
  | vnum n => exact absurd h (by simp [accessProperty])
  | vstr s2 => exact absurd h (by simp [accessProperty])

/-- A successful `removeProp` happens on a container and produces a
container. -/
theorem removeProp_container (parent : JVal) (property : String)
    (h : (removeProp parent property).2 = true) :
    isContainer parent = true ∧ isContainer (removeProp parent property).1 = true := by
  cases parent with
  | arr elems =>
    refine ⟨rfl, ?_⟩
    cases hidx : toArrayIndex property with
    | none => simp [removeProp, hidx] at h
    | some i =>
      by_cases hlt : i < elems.length
      · simp [removeProp, hidx, hlt, isContainer]
      · simp [removeProp, hidx, hlt] at h
  | obj fields =>
    refine ⟨rfl, ?_⟩
    by_cases hl : (lookupField fields property).isSome
    · simp [removeProp, hl, isContainer]
    · simp [removeProp, hl] at h
  | vnull => simp [removeProp] at h
  | vbool b => simp [removeProp] at h
  | vnum n => simp [removeProp] at h
  | vstr s2 => simp [removeProp] at h

/-- A value through which a non-empty path resolves is a container. -/
theorem isContainer_of_getByPath (v : JVal) (s : String) (rest : List String) (x : JVal)
    (h : getByPath v (s :: rest) = some x) : isContainer v = true := by
  cases v with
  | arr elems => rfl
  | obj fields => rfl
  | vnull => simp [getByPath, accessProperty] at h
  | vbool b => simp [getByPath, accessProperty] at h
  | vnum n => simp [getByPath, accessProperty] at h
  | vstr s2 => simp [getByPath, accessProperty] at h

/-- A value from which a path reaches a container is not `null`. -/
theorem ne_vnull_of_getByPath_container (x y : JVal) (rest : List String)
    (h : getByPath x rest = some y) (hy : isContainer y = true) : x ≠ JVal.vnull := by
  intro hx
  subst hx
  cases rest with
  | nil =>
    simp only [getByPath, Option.some.injEq] at h
    rw [← h] at hy
    simp [isContainer] at hy
  | cons r rest2 => simp [getByPath, accessProperty] at h

/-- Walking one non-`null` step of a path. -/
theorem getByPath_cons_eq (v x : JVal) (s : String) (rest : List String)
    (hacc : accessProperty v s = some x) (hx : x ≠ JVal.vnull) :
    getByPath v (s :: rest) = getByPath x rest := by
  cases x with
  | vnull => exact absurd rfl hx
  | vbool b => simp [getByPath, hacc]
  | vnum n => simp [getByPath, hacc]
  | vstr s2 => simp [getByPath, hacc]
  | arr elems => simp [getByPath, hacc]
  | obj fields => simp [getByPath, hacc]

/-- One unfolding step of `deleteByPath` along a resolving non-`null`
child. -/
theorem deleteByPath_cons2 (v child : JVal) (s r2 : String) (rest2 : List String)
    (hacc : accessProperty v s = some child) (hne : child ≠ JVal.vnull) :
    deleteByPath v (s :: r2 :: rest2) =
      (if (deleteByPath child (r2 :: rest2)).2 then
          assignProperty v s (deleteByPath child (r2 :: rest2)).1
        else v,
        (deleteByPath child (r2 :: rest2)).2) := by
  cases child with
  | vnull => exact absurd rfl hne
  | vbool b => simp [deleteByPath, hacc]
  | vnum n => simp [deleteByPath, hacc]
  | vstr s2 => simp [deleteByPath, hacc]
  | arr elems => simp [deleteByPath, hacc]
  | obj fields => simp [deleteByPath, hacc]

/-- `deleteByPath` on `segs ++ [last]`, when `segs` resolves to a parent from
which `last` can be removed, reports the deletion and leaves the removed
parent in place of the old one. -/
theorem deleteByPath_spec (segs : List String) (v parent : JVal) (last : String)
    (h : getByPath v segs = some parent)
    (hok : (removeProp parent last).2 = true) :
    (deleteByPath v (segs ++ [last])).2 = true ∧
    getByPath (deleteByPath v (segs ++ [last])).1 segs = some (removeProp parent last).1 := by
  induction segs generalizing v with
  | nil =>
    simp only [getByPath, Option.some.injEq] at h
    subst h
    simp [deleteByPath, hok, getByPath]
  | cons s rest ih =>
    simp only [getByPath] at h
    cases hacc : accessProperty v s with
    | none => rw [hacc] at h; exact absurd h (by simp)
    | some child =>
      rw [hacc] at h
      have hchild : child ≠ JVal.vnull → getByPath child rest = some parent := by
        intro hne
        cases child with
        | vnull => exact absurd rfl hne
        | vbool b => exact h
        | vnum n => exact h
        | vstr s2 => exact h
        | arr elems => exact h
        | obj fields => exact h
      by_cases hne : child = JVal.vnull
      · exfalso
        subst hne
        have : parent = JVal.vnull := by
          cases rest <;> simp_all [getByPath]
        rw [this] at hok
        simp [removeProp] at hok
      · have hrest := hchild hne
        have hrec := ih child hrest
        have hXne : (deleteByPath child (rest ++ [last])).1 ≠ JVal.vnull :=
          ne_vnull_of_getByPath_container _ _ rest hrec.2
            (removeProp_container parent last hok).2
        rw [List.cons_append]
        cases hrl : rest ++ [last] with
        | nil => simp at hrl
        | cons r2 rest2 =>
          rw [hrl] at hrec hXne
          rw [deleteByPath_cons2 v child s r2 rest2 hacc hne]
          refine ⟨by simp [hrec.1], ?_⟩
          simp only [hrec.1, if_true]
          rw [getByPath_cons_eq _ _ s rest
            (accessProperty_assign_self v s child _ hacc) hXne]
          exact hrec.2

/-- `setByPath`, when the parent of the path resolves to a plain object,
makes the full path read back as the written value. -/
theorem getByPath_setByPath (segs : List String) (v : JVal) (pf : List (String × JVal))
    (val : JVal) (hne : segs ≠ [])
    (h : getByPath v segs.dropLast = some (JVal.obj pf)) :
    getByPath (setByPath v segs val) segs = some val := by
  induction segs generalizing v pf with
  | nil => exact absurd rfl hne
  | cons s rest ih =>
    cases rest with
    | nil =>
      simp only [List.dropLast, getByPath, Option.some.injEq] at h
      subst h
      have hacc := lookupField_assignField_self pf s val
      show getByPath (assignProperty (JVal.obj pf) s val) [s] = some val
      cases val <;> simp [getByPath, assignProperty, accessProperty, hacc]
    | cons r2 rest2 =>
      simp only [List.dropLast, getByPath] at h
      cases hacc : accessProperty v s with
      | none => rw [hacc] at h; exact absurd h (by simp)
      | some m =>
        rw [hacc] at h
        have hmne : m ≠ JVal.vnull := by
          intro hm
          subst hm
          simp only [Option.some.injEq] at h
          exact JVal.noConfusion h
        have hrest : getByPath m (r2 :: rest2).dropLast = some (JVal.obj pf) := by
          cases m with
          | vnull => exact absurd rfl hmne
          | vbool b => exact h
          | vnum n => exact h
          | vstr s2 => exact h
          | arr elems => exact h
          | obj fields => exact h
        have hcont : isContainer m = true := by
          cases hdd : (r2 :: rest2).dropLast with
          | nil =>
            rw [hdd] at hrest
            simp only [getByPath, Option.some.injEq] at hrest
            rw [hrest]
            rfl
          | cons a b =>
            rw [hdd] at hrest
            exact isContainer_of_getByPath m a b _ hrest
        have hres := ih m pf (by simp) hrest
        have hXne : setByPath m (r2 :: rest2) val ≠ JVal.vnull := by
          intro hX
          rw [hX] at hres
          simp [getByPath, accessProperty] at hres
        have hstep : setByPath v (s :: r2 :: rest2) val =
            assignProperty v s (setByPath m (r2 :: rest2) val) := by
          simp [setByPath, hacc, hcont]
        rw [hstep,
          getByPath_cons_eq _ _ s (r2 :: rest2)
            (accessProperty_assign_self v s m _ hacc) hXne]
        exact hres

/-- C7 counterexample: the claim says `replace()` on a path with a missing
intermediate segment creates the missing containers and sets the leaf; but
`createSerializerContext` skips the rule (without invoking the callback)
whenever the parent of the path does not resolve to a container, so on the
record `{metadata: {}}` the rule for `metadata.audit.traceId` never runs:
the record is unchanged, the leaf stays unset and the replace counter stays
at zero. -/
theorem C7_replace_missing_intermediate_counterexample :
    runSerializers
        [("metadata.audit.traceId",
          { actions := [SerAction.replace (JVal.vstr "trace-123")] })]
        (JVal.obj [("metadata", JVal.obj [])]) =
      (JVal.obj [("metadata", JVal.obj [])],
        { executed := 1, redacted := 0, replaced := 0, failed := 0, errors := [] }) ∧
    getByPath
        (runSerializers
          [("metadata.audit.traceId",
            { actions := [SerAction.replace (JVal.vstr "trace-123")] })]
          (JVal.obj [("metadata", JVal.obj [])])).1
        ["metadata", "audit", "traceId"] = none := by
  constructor <;> rfl

/-- C7 (amended): for every record whose `metadata.tokens` is an array with
index 1 present, a rule for path `metadata.tokens.1` that calls `redact()`
removes exactly that element, shifting later elements down one index
(`List.eraseIdx 1`), and counts one redaction.  A rule whose path minus its
last segment resolves to a plain object and that calls `replace(value)` sets
the leaf to the value and counts one replacement; but a rule whose path has
a missing or non-container intermediate (the parent does not resolve to a
container and the path has more than one segment) is skipped without running
the callback, leaving the record unchanged. -/
theorem C7_serializer_path_rules :
    (∀ (record : JVal) (ts : List JVal),
      getByPath record ["metadata", "tokens"] = some (JVal.arr ts) →
      2 ≤ ts.length →
      getByPath
          (runSerializers [("metadata.tokens.1", { actions := [SerAction.redact] })]
            record).1 ["metadata", "tokens"] = some (JVal.arr (ts.eraseIdx 1)) ∧
      (runSerializers [("metadata.tokens.1", { actions := [SerAction.redact] })]
          record).2 =
        { executed := 1, redacted := 1, replaced := 0, failed := 0, errors := [] }) ∧
    (∀ (record : JVal) (key : String) (rule : SerializerSpec),
      getPathSegments key ≠ [] →
      isContainerO (getByPath record (getPathSegments key).dropLast) = false →
      (getPathSegments key).length > 1 →
      runSerializers [(key, rule)] record =
        (record, { executed := 1, redacted := 0, replaced := 0, failed := 0, errors := [] })) ∧
    (∀ (record : JVal) (key : String) (pf : List (String × JVal)) (val : JVal),
      getPathSegments key ≠ [] →
      getByPath record (getPathSegments key).dropLast = some (JVal.obj pf) →
      getByPath
          (runSerializers [(key, { actions := [SerAction.replace val] })] record).1
          (getPathSegments key) = some val ∧
      (runSerializers [(key, { actions := [SerAction.replace val] })] record).2 =
        { executed := 1, redacted := 0, replaced := 1, failed := 0, errors := [] }) := by
  refine ⟨?_, ?_, ?_⟩
  · intro record ts h hlen
    have hidx : toArrayIndex "1" = some 1 := rfl
    have hok : (removeProp (JVal.arr ts) "1").2 = true := by
      simp only [removeProp, hidx]
      rw [if_pos (by omega)]
    have hrem : (removeProp (JVal.arr ts) "1").1 = JVal.arr (ts.eraseIdx 1) := by
      simp only [removeProp, hidx]
      rw [if_pos (by omega)]
    have hdel := deleteByPath_spec ["metadata", "tokens"] record (JVal.arr ts) "1" h hok
    have hconsEq : ["metadata", "tokens"] ++ ["1"] = ["metadata", "tokens", "1"] := rfl
    rw [hconsEq] at hdel
    have hsegs : getPathSegments "metadata.tokens.1" = ["metadata", "tokens", "1"] := rfl
    have hcont : isContainerO (getByPath record ["metadata", "tokens"]) = true := by
      rw [h]
      rfl
    have hrun :
        runSerializers [("metadata.tokens.1", { actions := [SerAction.redact] })] record =
          ((deleteByPath record ["metadata", "tokens", "1"]).1,
            { executed := 1, redacted := 1, replaced := 0, failed := 0, errors := [] }) := by
      simp only [runSerializers, List.foldl, runSerializerEntry, hsegs, List.isEmpty_cons,
        Bool.false_eq_true, if_false, List.dropLast]
      rw [if_neg (fun hc => hc.1 hcont)]
      simp only [applySerActions, applySerAction]
      simp [hdel.1]
    rw [hrun]
    refine ⟨?_, rfl⟩
    rw [hdel.2, hrem]
  · intro record key rule hne hcont hlen
    have hemp : (getPathSegments key).isEmpty = false := by
      cases hseg : getPathSegments key with
      | nil => exact absurd hseg hne
      | cons a b => rfl
    simp only [runSerializers, List.foldl, runSerializerEntry, hemp, Bool.false_eq_true,
      if_false]
    rw [if_pos ⟨by simp [hcont], hlen⟩]
  · intro record key pf val hne h
    have hemp : (getPathSegments key).isEmpty = false := by
      cases hseg : getPathSegments key with
      | nil => exact absurd hseg hne
      | cons a b => rfl
    have hset := getByPath_setByPath (getPathSegments key) record pf val hne h
    have hrun :
        runSerializers [(key, { actions := [SerAction.replace val] })] record =
          (setByPath record (getPathSegments key) val,
            { executed := 1, redacted := 0, replaced := 1, failed := 0, errors := [] }) := by
      simp only [runSerializers, List.foldl, runSerializerEntry, hemp, Bool.false_eq_true,
        if_false, h, isContainerO, isContainer, applySerActions, applySerAction]
      rw [if_neg (by simp)]
    rw [hrun]
    exact ⟨hset, rfl⟩

/-- C7 witness: the concrete record of the repository's serializer tests —
`metadata.tokens = ["keep", "drop", "stay"]` loses exactly index 1, and a
replace on `metadata.audit.traceId` whose parent `metadata.audit` exists
sets the leaf, while the skip clause fires on `metadata.count.value` with a
scalar intermediate. -/
theorem C7_serializer_path_rules_witness :
    (getByPath
        (runSerializers [("metadata.tokens.1", { actions := [SerAction.redact] })]
          (JVal.obj [("metadata",
            JVal.obj [("tokens",
              JVal.arr [JVal.vstr "keep", JVal.vstr "drop", JVal.vstr "stay"])])])).1
        ["metadata", "tokens"] =
      some (JVal.arr ([JVal.vstr "keep", JVal.vstr "drop", JVal.vstr "stay"].eraseIdx 1))) ∧
    runSerializers [("metadata.count.value", { actions := [SerAction.replace (JVal.vnum 0)] })]
        (JVal.obj [("metadata", JVal.obj [("count", JVal.vnum 10)])]) =
      (JVal.obj [("metadata", JVal.obj [("count", JVal.vnum 10)])],
        { executed := 1, redacted := 0, replaced := 0, failed := 0, errors := [] }) ∧
    getByPath
        (runSerializers
          [("metadata.audit.traceId",
            { actions := [SerAction.replace (JVal.vstr "trace-123")] })]
          (JVal.obj [("metadata", JVal.obj [("audit", JVal.obj [])])])).1
        ["metadata", "audit", "traceId"] = some (JVal.vstr "trace-123") :=
  ⟨(C7_serializer_path_rules.1
      (JVal.obj [("metadata",
        JVal.obj [("tokens",
          JVal.arr [JVal.vstr "keep", JVal.vstr "drop", JVal.vstr "stay"])])])
      [JVal.vstr "keep", JVal.vstr "drop", JVal.vstr "stay"] rfl (by decide)).1,
    C7_serializer_path_rules.2.1
      (JVal.obj [("metadata", JVal.obj [("count", JVal.vnum 10)])])
      "metadata.count.value" { actions := [SerAction.replace (JVal.vnum 0)] }
      (by intro h2; exact List.noConfusion h2) rfl (by decide),
    (C7_serializer_path_rules.2.2
      (JVal.obj [("metadata", JVal.obj [("audit", JVal.obj [])])])
      "metadata.audit.traceId" [] (JVal.vstr "trace-123")
      (by intro h2; exact List.noConfusion h2) rfl).1⟩

/-- The level's string name (the `LogLevelName` union values). -/
def levelName : LogLevelName → String
  | .trace => "trace"
  | .debug => "debug"
  | .info => "info"
  | .warn => "warn"
  | .error => "error"
  | .fatal => "fatal"
  | .silent => "silent"

/-- The `LogRecord` object as the serializer pipeline would traverse it
(its `level`/`timestamp`/`message`/`bindings`/`context`/`metadata`
properties). -/
def recordToJVal (r : LogRecordR) : JVal :=
  JVal.obj
    [("level", JVal.vstr (levelName r.level)),
      ("timestamp", JVal.vnum (Int.ofNat r.timestamp)),
      ("message", JVal.vstr r.message),
      ("bindings", r.bindings),
      ("context", r.context),
      ("metadata", r.metadata)]

/-- The before-hook of the repository's connector test: it tags the message
with `-tagged` through the mutation function. -/
def taggedHook : HookPlanEntry BeforeHookBehavior :=
  { name := "before", order := 0,
    hook := { run := fun r => ([{ r with message := r.message ++ "-tagged" }], none) } }

/-- C1: `PinoCoreLogger.dispatch` hands the freshly built record directly to
the transport registry and the raw backend; it never invokes the configured
before-hooks, serializer pipeline or after-hooks.  At the input of the
repository's own connector test (`routes records through transports with
plugins and serializers`), the transport receives the record with message
`demo` and the secret still present — although the configured before-hook
would have produced `demo-tagged` and the configured serializer would have
removed the secret, which is what that test asserts the transport must
see. -/
theorem C1_dispatch_bypasses_pipeline :
    (dispatch
        { state := .running, level := .info,
          entries := [{ name := "memory", level := none, pubThrows := fun _ => none }],
          failures := [],
          ctxMgr := createCtxMgr [("region", JVal.vstr "eu")] true }
        (JVal.obj []) .info "demo"
        (some (JVal.obj [("data",
          JVal.obj [("secret", JVal.vstr "value"), ("kept", JVal.vstr "safe")])])) 0).1.message =
      "demo" ∧
    getByPath
        (recordToJVal
          (dispatch
            { state := .running, level := .info,
              entries := [{ name := "memory", level := none, pubThrows := fun _ => none }],
              failures := [],
              ctxMgr := createCtxMgr [("region", JVal.vstr "eu")] true }
            (JVal.obj []) .info "demo"
            (some (JVal.obj [("data",
              JVal.obj [("secret", JVal.vstr "value"),
                ("kept", JVal.vstr "safe")])])) 0).1)
        ["metadata", "data", "secret"] = some (JVal.vstr "value") ∧
    (runBeforeHooks [taggedHook]
        (dispatch
          { state := .running, level := .info,
            entries := [{ name := "memory", level := none, pubThrows := fun _ => none }],
            failures := [],
            ctxMgr := createCtxMgr [("region", JVal.vstr "eu")] true }
          (JVal.obj []) .info "demo"
          (some (JVal.obj [("data",
            JVal.obj [("secret", JVal.vstr "value"),
              ("kept", JVal.vstr "safe")])])) 0).1).1.message = "demo-tagged" ∧
    getByPath
        (runSerializers [("metadata.data.secret", { actions := [SerAction.redact] })]
          (recordToJVal
            (dispatch
              { state := .running, level := .info,
                entries := [{ name := "memory", level := none, pubThrows := fun _ => none }],
                failures := [],
                ctxMgr := createCtxMgr [("region", JVal.vstr "eu")] true }
              (JVal.obj []) .info "demo"
              (some (JVal.obj [("data",
                JVal.obj [("secret", JVal.vstr "value"),
                  ("kept", JVal.vstr "safe")])])) 0).1)).1
        ["metadata", "data", "secret"] = none :=
  ⟨rfl, rfl, rfl, rfl⟩

/-- C9: for every context value `I`, configuring the manager with initial
context `I` and then calling `resetContext()` makes a subsequent `get()`
return a context equal to `I`, in either propagation mode. -/
theorem C9_configure_reset_roundtrip (m : CtxMgr) (I : LogContextM) (p : Bool) :
    getContextM (resetContextM (configureM m I p)) = I := by
  cases p <;>
    simp [getContextM, resetContextM, configureM, writeContext, readActiveContext,
      cloneContext]

end PinoConnector
